import Mathlib

/-!
Verification of the serverless-cost dashboard script (`app.py`).

The script is a single pandas pipeline: it coerces seven columns of an
uploaded CSV to numeric (unparsable cells become NaN), then runs six
analysis stages, each a filter / sort / arithmetic projection over the
in-memory table.

Embedding conventions:
* a numeric pandas cell is `Cell := Option ℚ`; `none` models NaN/missing
  (pandas floats are modelled by exact rationals);
* pandas comparisons on cells (`NaN cmp x` is `False`) become `Bool`
  functions that return `false` when an operand is `none`;
* `Series.sum` and `Series.cumsum` skip missing values, as pandas does
  with the default `skipna=True`;
* division whose denominator is zero would produce a non-finite float in
  pandas; it is modelled as a missing value (`none`).  Every comparison
  the script performs on such a value is against a finite bound, and the
  claims under study only constrain rows where the value is finite;
* `sort_values(col, ascending=False)` is modelled as a descending
  stable insertion sort with missing keys placed last (pandas
  `na_position='last'`).  The model fixes a stable tie order; no theorem
  below about the code depends on the order of equal keys.
-/

/-- A numeric cell of the table: `none` models pandas NaN. -/
abbrev Cell := Option ℚ

/-- Elementwise addition of two cells; any missing operand gives missing,
as NaN propagates through pandas arithmetic. -/
def cAdd (a b : Cell) : Cell :=
  match a, b with
  | some x, some y => some (x + y)
  | _, _ => none

/-- Elementwise subtraction of two cells, NaN-propagating. -/
def cSub (a b : Cell) : Cell :=
  match a, b with
  | some x, some y => some (x - y)
  | _, _ => none

/-- Elementwise multiplication of two cells, NaN-propagating. -/
def cMul (a b : Cell) : Cell :=
  match a, b with
  | some x, some y => some (x * y)
  | _, _ => none

/-- Multiplication of a cell by a scalar literal, NaN-propagating. -/
def cMulQ (a : Cell) (q : ℚ) : Cell :=
  a.map (fun x => x * q)

/-- Division of a cell by a scalar.  A zero denominator gives a
non-finite float in pandas; it is modelled as missing. -/
def cDivQ (a : Cell) (q : ℚ) : Cell :=
  if q = 0 then none else a.map (fun x => x / q)

/-- Pandas comparison `cell < q`: `false` when the cell is NaN. -/
def cLtQ (a : Cell) (q : ℚ) : Bool :=
  match a with
  | some x => decide (x < q)
  | none => false

/-- Pandas comparison `cell > q`: `false` when the cell is NaN. -/
def cGtQ (a : Cell) (q : ℚ) : Bool :=
  match a with
  | some x => decide (q < x)
  | none => false

/-- Pandas comparison `cell ≤ q`: `false` when the cell is NaN. -/
def cLeQ (a : Cell) (q : ℚ) : Bool :=
  match a with
  | some x => decide (x ≤ q)
  | none => false

/-- Pandas comparison of two cells `a > b`: `false` when either is NaN. -/
def cGtC (a b : Cell) : Bool :=
  match a, b with
  | some x, some y => decide (y < x)
  | _, _ => false

/-- Value of a string of decimal digits. -/
def digitsToNat (cs : List Char) : ℕ :=
  cs.foldl (fun acc c => 10 * acc + (c.toNat - 48)) 0

/-- Leading and trailing whitespace stripped from a character list. -/
def trimChars (cs : List Char) : List Char :=
  ((cs.dropWhile Char.isWhitespace).reverse.dropWhile Char.isWhitespace).reverse

/-- Modelled from `pd.to_numeric(col, errors='coerce')` applied to a raw
CSV cell: an optionally signed decimal literal (integer part, optional
fraction) parses to its rational value, anything else — including the
empty string — coerces to missing.  Exponent and hexadecimal forms,
which the library also accepts, are omitted; no claim depends on them. -/
def parseNumeric (s : String) : Option ℚ :=
  let t := trimChars s.data
  let sgn : ℚ := if t.head? = some '-' then -1 else 1
  let body := if t.head? = some '-' ∨ t.head? = some '+' then t.tail else t
  match body.span (fun c => c.isDigit) with
  | (ip, []) =>
    if ip.isEmpty then none else some (sgn * digitsToNat ip)
  | (ip, '.' :: fp) =>
    if fp.all (fun c => c.isDigit) ∧ (ip ≠ [] ∨ fp ≠ []) then
      some (sgn * ((digitsToNat ip : ℚ) + (digitsToNat fp : ℚ) / (10 : ℚ) ^ fp.length))
    else none
  | _ => none

/-- A raw CSV row: the `FunctionName` column and the seven designated
numeric columns, still as text. -/
structure RawRow where
  functionName : String
  costUSD : String
  invocationsPerMonth : String
  avgDurationMs : String
  memoryMB : String
  coldStartRate : String
  provisionedConcurrency : String
  dataTransferGB : String
deriving DecidableEq

/-- A table row after ingestion: the seven designated columns coerced to
numeric with unparsable cells missing (app.py lines 15–21). -/
structure Row where
  functionName : String
  costUSD : Cell
  invocationsPerMonth : Cell
  avgDurationMs : Cell
  memoryMB : Cell
  coldStartRate : Cell
  provisionedConcurrency : Cell
  dataTransferGB : Cell
deriving DecidableEq

/-- Coercion of one row: each numeric cell is parsed independently. -/
def coerceRow (r : RawRow) : Row :=
  { functionName := r.functionName
    costUSD := parseNumeric r.costUSD
    invocationsPerMonth := parseNumeric r.invocationsPerMonth
    avgDurationMs := parseNumeric r.avgDurationMs
    memoryMB := parseNumeric r.memoryMB
    coldStartRate := parseNumeric r.coldStartRate
    provisionedConcurrency := parseNumeric r.provisionedConcurrency
    dataTransferGB := parseNumeric r.dataTransferGB }

/-- Ingestion coercion over the whole table (app.py lines 15–21). -/
def coerce (t : List RawRow) : List Row :=
  t.map coerceRow

/-- `Series.sum` with pandas `skipna=True`: missing cells contribute 0,
and the sum of an empty or all-missing column is 0. -/
def colSum (xs : List Cell) : ℚ :=
  (xs.filterMap id).sum

/-- Order used by `sort_values(ascending=False)`: larger keys first,
missing keys last (`na_position='last'`). -/
def descLe (a b : Cell) : Bool :=
  match a, b with
  | some x, some y => decide (y ≤ x)
  | some _, none => true
  | none, some _ => false
  | none, none => true

/-- Insertion of `x` into a list sorted under `le`, before the first
element it may precede; among equal keys the inserted, originally
earlier, element stays first. -/
def insertBy {α : Type} (le : α → α → Bool) (x : α) : List α → List α
  | [] => [x]
  | y :: ys => if le x y then x :: y :: ys else y :: insertBy le x ys

/-- Stable insertion sort: the deterministic model used for
`sort_values`. -/
def sortBy {α : Type} (le : α → α → Bool) : List α → List α
  | [] => []
  | x :: xs => insertBy le x (sortBy le xs)

/-- `df.sort_values(key, ascending=False)` modelled as a stable sort
under `descLe` on the key column. -/
def sortDescBy (key : Row → Cell) (t : List Row) : List Row :=
  sortBy (fun a b => descLe (key a) (key b)) t

/-- `total_cost = df["CostUSD"].sum()` (app.py line 26). -/
def total_cost (t : List Row) : ℚ :=
  colSum (t.map (fun r => r.costUSD))

/-- `df_sorted = df.sort_values("CostUSD", ascending=False)`
(app.py line 34). -/
def df_sorted (t : List Row) : List Row :=
  sortDescBy (fun r => r.costUSD) t

/-- `Series.cumsum` with `skipna=True`: a missing cell stays missing and
does not advance the running sum. -/
def cumsumFrom (acc : ℚ) : List Cell → List Cell
  | [] => []
  | none :: rest => none :: cumsumFrom acc rest
  | some x :: rest => some (acc + x) :: cumsumFrom (acc + x) rest

/-- `df_sorted["CumulativeCost"] = df_sorted["CostUSD"].cumsum()`
(app.py line 35). -/
def cumsum (xs : List Cell) : List Cell :=
  cumsumFrom 0 xs

/-- A sorted row together with its two ranker-derived columns. -/
structure RankRow where
  row : Row
  cumulativeCost : Cell
  cumulativePercent : Cell
deriving DecidableEq

/-- The ranker's working copy: rows sorted by cost descending with
`CumulativeCost` and `CumulativePercent = CumulativeCost / total_cost
* 100` attached (app.py lines 34–36). -/
def rankedRows (t : List Row) : List RankRow :=
  ((df_sorted t).zip (cumsum ((df_sorted t).map (fun r => r.costUSD)))).map
    (fun p => { row := p.1
                cumulativeCost := p.2
                cumulativePercent := cMulQ (cDivQ p.2 (total_cost t)) 100 })

/-- `top_80 = df_sorted[df_sorted["CumulativePercent"] <= 80]`
(app.py line 38). -/
def top_80 (t : List Row) : List RankRow :=
  (rankedRows t).filter (fun rr => cLeQ rr.cumulativePercent 80)

/-- `df["DurationSec"] = df["AvgDurationMs"] / 1000` (app.py line 57);
the value of the derived column at a row. -/
def durationSec (r : Row) : Cell :=
  r.avgDurationMs.map (fun x => x / 1000)

/-- The right-sizer filter `(MemoryMB > 1500) & (DurationSec < 1)`
(app.py lines 59–61). -/
def memPred (r : Row) : Bool :=
  cGtQ r.memoryMB 1500 && cLtQ (durationSec r) 1

/-- A right-sizer output row with its two projection columns. -/
structure MemRow where
  row : Row
  predictedNewCost : Cell
  savings : Cell
deriving DecidableEq

/-- `memory_issues`: filter by `memPred`, sort by `MemoryMB` descending,
then attach `PredictedNewCost = CostUSD * 0.75` and
`Savings = CostUSD - PredictedNewCost` (app.py lines 59–67). -/
def memory_issues (t : List Row) : List MemRow :=
  (sortDescBy (fun r => r.memoryMB) (t.filter memPred)).map
    (fun r => { row := r
                predictedNewCost := cMulQ r.costUSD (3 / 4)
                savings := cSub r.costUSD (cMulQ r.costUSD (3 / 4)) })

/-- A concurrency-waste output row with its flag column. -/
structure PcRow where
  row : Row
  pcWasteFlag : Bool
deriving DecidableEq

/-- `pc_candidates = df[df["ProvisionedConcurrency"] > 0]` with
`PC_WasteFlag = ColdStartRate < 2` attached (app.py lines 80–81). -/
def pc_candidates (t : List Row) : List PcRow :=
  (t.filter (fun r => cGtQ r.provisionedConcurrency 0)).map
    (fun r => { row := r, pcWasteFlag := cLtQ r.coldStartRate 2 })

/-- `total_inv = df["InvocationsPerMonth"].sum()` (app.py line 98). -/
def total_inv (t : List Row) : ℚ :=
  colSum (t.map (fun r => r.invocationsPerMonth))

/-- `df["PercentInvocations"] = df["InvocationsPerMonth"] / total_inv
* 100` (app.py line 99); the value of the derived column at a row. -/
def percentInvocations (t : List Row) (r : Row) : Cell :=
  cMulQ (cDivQ r.invocationsPerMonth (total_inv t)) 100

/-- `Series.median` with pandas `skipna=True`: drop missing values,
sort ascending; the median of an empty column is NaN, of an odd-length
column the middle value, of an even-length column the mean of the two
middle values. -/
def medianQ (l : List ℚ) : Cell :=
  let s := sortBy (fun a b => decide (a ≤ b)) l
  if s.length = 0 then none
  else if s.length % 2 = 1 then some (s.getD (s.length / 2) 0)
  else some ((s.getD (s.length / 2 - 1) 0 + s.getD (s.length / 2) 0) / 2)

/-- `df["CostUSD"].median()` over the full unfiltered table
(app.py line 101). -/
def medianCost (t : List Row) : Cell :=
  medianQ ((t.map (fun r => r.costUSD)).filterMap id)

/-- `low_value = df[(df["PercentInvocations"] < 1) & (df["CostUSD"] >
df["CostUSD"].median())]` (app.py line 101). -/
def low_value (t : List Row) : List Row :=
  t.filter (fun r => cLtQ (percentInvocations t r) 1 && cGtC r.costUSD (medianCost t))

/-- Pricing coefficient `k = 0.000000002` of the forecaster
(app.py line 117). -/
def kCoeff : ℚ := 2 / 1000000000

/-- Pricing coefficient `p = 0.09` of the forecaster (app.py line 118). -/
def pCoeff : ℚ := 9 / 100

/-- `df["PredictedCost"] = df["InvocationsPerMonth"] * df["DurationSec"]
* df["MemoryMB"] * 0.000000002 + df["DataTransferGB"] * 0.09`
(app.py lines 116–119); the value of the derived column at a row. -/
def predictedCost (r : Row) : Cell :=
  cAdd (cMulQ (cMul (cMul r.invocationsPerMonth (durationSec r)) r.memoryMB) kCoeff)
    (cMulQ r.dataTransferGB pCoeff)

/-- `containers = df[(df["DurationSec"] > 3) & (df["MemoryMB"] > 2000) &
(df["InvocationsPerMonth"] < 5000)]` (app.py lines 146–150). -/
def containers (t : List Row) : List Row :=
  t.filter (fun r =>
    cGtQ (durationSec r) 3 && cGtQ r.memoryMB 2000 && cLtQ r.invocationsPerMonth 5000)

/-- A row of the global dataframe `df` as it is threaded through the
script: the eight ingested columns plus the three columns the stages add
to `df` itself (app.py lines 57, 99, 116).  An outer `none` means the
column has not been added yet; an inner `none` is a NaN cell. -/
structure DfRow where
  raw : Row
  durationSecCol : Option Cell
  percentInvocationsCol : Option Cell
  predictedCostCol : Option Cell
deriving DecidableEq

/-- The dataframe right after ingestion: no derived column present. -/
def baseDf (rows : List Row) : List DfRow :=
  rows.map (fun r => { raw := r
                       durationSecCol := none
                       percentInvocationsCol := none
                       predictedCostCol := none })

/-- `df["DurationSec"] = df["AvgDurationMs"] / 1000` (app.py line 57). -/
def addDurationSec (df : List DfRow) : List DfRow :=
  df.map (fun r => { r with durationSecCol := some (r.raw.avgDurationMs.map (fun x => x / 1000)) })

/-- `df["PercentInvocations"] = df["InvocationsPerMonth"] / total_inv
* 100` (app.py lines 98–99). -/
def addPercentInvocations (df : List DfRow) : List DfRow :=
  df.map (fun r =>
    let v := cMulQ (cDivQ r.raw.invocationsPerMonth (colSum (df.map (fun s => s.raw.invocationsPerMonth)))) 100
    { r with percentInvocationsCol := some v })

/-- `df["PredictedCost"] = df["InvocationsPerMonth"] * df["DurationSec"]
* df["MemoryMB"] * 0.000000002 + df["DataTransferGB"] * 0.09`
(app.py lines 116–119), reading the `DurationSec` column added earlier;
a read of the column before it exists is modelled as a NaN cell. -/
def addPredictedCost (df : List DfRow) : List DfRow :=
  df.map (fun r =>
    let v := cAdd (cMulQ (cMul (cMul r.raw.invocationsPerMonth r.durationSecCol.join) r.raw.memoryMB) kCoeff)
      (cMulQ r.raw.dataTransferGB pCoeff)
    { r with predictedCostCol := some v })

/-- The whole script's effect on the global dataframe `df`: ingestion
coercion followed by the three in-place column additions, in program
order.  The per-stage outputs (`df_sorted`/`top_80`, `memory_issues`,
`pc_candidates`, `low_value`, `containers`) are separate copies built
from `df` and never written back to it. -/
def runPipeline (t : List RawRow) : List DfRow :=
  addPredictedCost (addPercentInvocations (addDurationSec (baseDf (coerce t))))

/-- Cell order used to state monotonicity of a column; missing cells are
not constrained. -/
def cellLe (a b : Cell) : Bool :=
  match a, b with
  | some x, some y => decide (x ≤ y)
  | _, _ => true

/-- A column is monotonically non-decreasing when every adjacent pair of
present cells is ordered. -/
def monoCells : List Cell → Bool
  | [] => true
  | [_] => true
  | a :: b :: rest => cellLe a b && monoCells (b :: rest)

/-- Monotonicity check on a list of rationals. -/
def monoQ : List ℚ → Bool
  | [] => true
  | [_] => true
  | a :: b :: rest => decide (a ≤ b) && monoQ (b :: rest)

/-- Running partial sums starting from `acc`: the value of `cumsum` on a
column with no missing cell. -/
def runningSums (acc : ℚ) : List ℚ → List ℚ
  | [] => []
  | x :: rest => (acc + x) :: runningSums (acc + x) rest

/-- A row with the given numeric cells, used for concrete scenarios. -/
def mkRow (nm : String) (c inv ms mem csr pc dtg : Cell) : Row :=
  { functionName := nm
    costUSD := c
    invocationsPerMonth := inv
    avgDurationMs := ms
    memoryMB := mem
    coldStartRate := csr
    provisionedConcurrency := pc
    dataTransferGB := dtg }

/-- Two-row scenario table with `CostUSD = [100, 20]` (spec §8). -/
def exCosts : List Row :=
  [mkRow "a" (some 100) (some 1) (some 100) (some 128) (some 1) (some 0) (some 1),
   mkRow "b" (some 20) (some 1) (some 100) (some 128) (some 1) (some 0) (some 1)]

/-- Two-row table containing a negative cost. -/
def exNegCost : List Row :=
  [mkRow "a" (some 100) (some 1) (some 100) (some 128) (some 1) (some 0) (some 1),
   mkRow "b" (some (-50)) (some 1) (some 100) (some 128) (some 1) (some 0) (some 1)]

/-- Scenario row with `MemoryMB = 2000` and `DurationSec = 0.5`
(`AvgDurationMs = 500`). -/
def rowIncl : Row :=
  mkRow "incl" (some 10) (some 1) (some 500) (some 2000) (some 1) (some 0) (some 1)

/-- Scenario row with `MemoryMB = 2000` and `DurationSec = 1.5`
(`AvgDurationMs = 1500`). -/
def rowExcl : Row :=
  mkRow "excl" (some 10) (some 1) (some 1500) (some 2000) (some 1) (some 0) (some 1)

/-- Scenario table for the right-sizer filter. -/
def exMem : List Row := [rowExcl, rowIncl]

/-- A rarely invoked but expensive row: 1 of 20001 invocations,
cost 100. -/
def rowLowA : Row :=
  mkRow "a" (some 100) (some 1) (some 100) (some 128) (some 1) (some 0) (some 1)

/-- A busy cheap row: 10000 invocations, cost 10. -/
def rowLowB : Row :=
  mkRow "b" (some 10) (some 10000) (some 100) (some 128) (some 1) (some 0) (some 1)

/-- A busy row of median cost 20. -/
def rowLowC : Row :=
  mkRow "c" (some 20) (some 10000) (some 100) (some 128) (some 1) (some 0) (some 1)

/-- Three-row table on which the low-value detector fires: `rowLowA` has
a 100/20001 percent share and cost 100 above the median 20. -/
def exLow : List Row := [rowLowA, rowLowB, rowLowC]

/-- A raw CSV row with all cells numeric. -/
def rawWit : RawRow :=
  { functionName := "checkout"
    costUSD := "5"
    invocationsPerMonth := "1000000"
    avgDurationMs := "200"
    memoryMB := "512"
    coldStartRate := "1.5"
    provisionedConcurrency := "2"
    dataTransferGB := "10" }

/-- A raw one-row CSV table. -/
def exRaw : List RawRow := [rawWit]

/-- The dataframe row the pipeline produces from `rawWit`:
`DurationSec = 200/1000`, `PercentInvocations = 100`, and
`PredictedCost = 1000000 * 0.2 * 512 * 2e-9 + 10 * 0.09 = 1381/1250`. -/
def dfWit : DfRow :=
  { raw := coerceRow rawWit
    durationSecCol := some (some (1 / 5))
    percentInvocationsCol := some (some 100)
    predictedCostCol := some (some (1381 / 1250)) }

/-- The right-sizer output row produced from `rowIncl`. -/
def memWit : MemRow :=
  { row := rowIncl, predictedNewCost := some (15 / 2), savings := some (5 / 2) }

/-- Inserting an element permutes consing it. -/
theorem insertBy_perm {α : Type} (le : α → α → Bool) (x : α) (l : List α) :
    (insertBy le x l).Perm (x :: l) := by
  induction l with
  | nil => exact List.Perm.refl _
  | cons y ys ih =>
    unfold insertBy
    by_cases h : le x y = true
    · simp [h]
    · simp only [h]
      simp only [Bool.false_eq_true, if_false]
      exact (ih.cons y).trans (List.Perm.swap x y ys)

/-- The stable sort permutes its input. -/
theorem sortBy_perm {α : Type} (le : α → α → Bool) (l : List α) :
    (sortBy le l).Perm l := by
  induction l with
  | nil => exact List.Perm.refl _
  | cons x xs ih =>
    exact (insertBy_perm le x (sortBy le xs)).trans (ih.cons x)

/-- Membership is preserved by the stable sort. -/
theorem mem_sortBy {α : Type} {le : α → α → Bool} {x : α} {l : List α} :
    x ∈ sortBy le l ↔ x ∈ l :=
  (sortBy_perm le l).mem_iff

/-- Inserting into a sorted list under a total transitive `le` keeps it
sorted. -/
theorem insertBy_pairwise {α : Type} {le : α → α → Bool}
    (total : ∀ a b, le a b = true ∨ le b a = true)
    (trans : ∀ a b c, le a b = true → le b c = true → le a c = true)
    (x : α) (l : List α) (hl : l.Pairwise (fun a b => le a b = true)) :
    (insertBy le x l).Pairwise (fun a b => le a b = true) := by
  induction l with
  | nil => simp [insertBy]
  | cons y ys ih =>
    rcases hl with _ | ⟨hy, hys⟩
    unfold insertBy
    by_cases h : le x y = true
    · simp only [h, if_true]
      refine List.Pairwise.cons ?_ (List.Pairwise.cons hy hys)
      intro b hb
      rw [List.mem_cons] at hb
      rcases hb with rfl | hb
      · exact h
      · exact trans x y b h (hy _ hb)
    · simp only [h]
      simp only [Bool.false_eq_true, if_false]
      have hyx : le y x = true := (total x y).resolve_left h
      refine List.Pairwise.cons ?_ (ih hys)
      intro b hb
      have hb2 := (insertBy_perm le x ys).mem_iff.mp hb
      rw [List.mem_cons] at hb2
      rcases hb2 with rfl | hb2
      · exact hyx
      · exact hy _ hb2

/-- The stable sort orders its output under a total transitive `le`. -/
theorem sortBy_pairwise {α : Type} {le : α → α → Bool}
    (total : ∀ a b, le a b = true ∨ le b a = true)
    (trans : ∀ a b c, le a b = true → le b c = true → le a c = true)
    (l : List α) :
    (sortBy le l).Pairwise (fun a b => le a b = true) := by
  induction l with
  | nil => simp [sortBy]
  | cons x xs ih => exact insertBy_pairwise total trans x (sortBy le xs) ih

/-- The descending cell order is total. -/
theorem descLe_total (a b : Cell) : descLe a b = true ∨ descLe b a = true := by
  cases a <;> cases b <;> simp [descLe] <;> exact le_total _ _

/-- The descending cell order is transitive. -/
theorem descLe_trans (a b c : Cell) :
    descLe a b = true → descLe b c = true → descLe a c = true := by
  cases a <;> cases b <;> cases c <;> simp [descLe]
  exact fun h1 h2 => le_trans h2 h1

/-- The rows of the right-sizer output are exactly the sorted filtered
rows; the two projection columns are attached by a map that keeps the
row itself. -/
theorem memory_issues_rows (t : List Row) :
    (memory_issues t).map (fun m => m.row)
      = sortDescBy (fun r => r.memoryMB) (t.filter memPred) := by
  unfold memory_issues
  rw [List.map_map]
  exact List.map_id _

/-- Membership in the right-sizer output, as rows. -/
theorem mem_memory_issues_row {t : List Row} {r : Row} :
    r ∈ (memory_issues t).map (fun m => m.row) ↔ r ∈ t ∧ memPred r = true := by
  rw [memory_issues_rows, sortDescBy, mem_sortBy, List.mem_filter]

/-- The rows of the concurrency-waste output are exactly the filtered
rows. -/
theorem pc_candidates_rows (t : List Row) :
    (pc_candidates t).map (fun p => p.row)
      = t.filter (fun r => cGtQ r.provisionedConcurrency 0) := by
  unfold pc_candidates
  rw [List.map_map]
  exact List.map_id _

/-- A row all of whose numeric cells are missing. -/
def rowNone : Row :=
  mkRow "gone" none none none none none none none

/-- One-row table holding only `rowNone`. -/
def exNone : List Row := [rowNone]

/-- C1: the emitted top-contributor set consists exactly of the sorted
rows whose own cumulative percent (cumulative cost including the current
row, divided by the total over the full unfiltered table) is at most 80;
on the two-row table with `CostUSD = [100, 20]` the first row's
cumulative percent is `250/3 ≈ 83.3 > 80`, so the output is empty. -/
theorem C1_top80_is_cumulative_percent_filter :
    (∀ (t : List Row) (rr : RankRow),
        rr ∈ top_80 t ↔ rr ∈ rankedRows t ∧ cLeQ rr.cumulativePercent 80 = true)
    ∧ (rankedRows exCosts).map (fun rr => rr.cumulativePercent) = [some (250 / 3), some 100]
    ∧ top_80 exCosts = [] := by
  refine ⟨fun t rr => List.mem_filter, by with_unfolding_all decide, by with_unfolding_all decide⟩

/-- C4: every right-sizer output row satisfies
`PredictedNewCost = CostUSD * 0.75`, `Savings = CostUSD * 0.25`, and
`PredictedNewCost + Savings = CostUSD` (exactly, in the rational
model of the floats). -/
theorem C4_rightsizer_cost_projection (t : List Row) (m : MemRow)
    (hm : m ∈ memory_issues t) :
    m.predictedNewCost = cMulQ m.row.costUSD (3 / 4)
    ∧ m.savings = cMulQ m.row.costUSD (1 / 4)
    ∧ cAdd m.predictedNewCost m.savings = m.row.costUSD := by
  unfold memory_issues at hm
  obtain ⟨r, hr, rfl⟩ := List.mem_map.mp hm
  refine ⟨rfl, ?_, ?_⟩ <;> cases h : r.costUSD <;>
    simp [cMulQ, cSub, cAdd, h] <;> ring

set_option maxRecDepth 4000 in
/-- Witness for C4 on the concrete right-sizer output row of `exMem`. -/
theorem C4_rightsizer_cost_projection_witness :
    memWit.predictedNewCost = cMulQ memWit.row.costUSD (3 / 4)
    ∧ memWit.savings = cMulQ memWit.row.costUSD (1 / 4)
    ∧ cAdd memWit.predictedNewCost memWit.savings = memWit.row.costUSD :=
  C4_rightsizer_cost_projection exMem memWit (by with_unfolding_all decide)

/-- C6: ingestion coercion is cellwise — the coerced table's row `i` is
the independent coercion of raw row `i`, each numeric cell is exactly
`parseNumeric` of the raw text (so an unparsable cell becomes `none`,
never a zero, and the function is total so no failure is raised), and a
non-numeric string such as "N/A" indeed parses to `none`. -/
theorem C6_coercion_is_cellwise :
    (∀ (t : List RawRow) (i : ℕ) (hi : i < t.length) (hi2 : i < (coerce t).length),
        (coerce t).get ⟨i, hi2⟩ = coerceRow (t.get ⟨i, hi⟩))
    ∧ (∀ rr : RawRow,
        (coerceRow rr).functionName = rr.functionName
        ∧ (coerceRow rr).costUSD = parseNumeric rr.costUSD
        ∧ (coerceRow rr).invocationsPerMonth = parseNumeric rr.invocationsPerMonth
        ∧ (coerceRow rr).avgDurationMs = parseNumeric rr.avgDurationMs
        ∧ (coerceRow rr).memoryMB = parseNumeric rr.memoryMB
        ∧ (coerceRow rr).coldStartRate = parseNumeric rr.coldStartRate
        ∧ (coerceRow rr).provisionedConcurrency = parseNumeric rr.provisionedConcurrency
        ∧ (coerceRow rr).dataTransferGB = parseNumeric rr.dataTransferGB)
    ∧ parseNumeric "N/A" = none := by
  refine ⟨?_, ?_, by with_unfolding_all decide⟩
  · intro t i hi hi2
    simp [coerce, List.get_eq_getElem, List.getElem_map]
  · intro rr
    exact ⟨rfl, rfl, rfl, rfl, rfl, rfl, rfl, rfl⟩

/-- Witness for C6 at row 0 of the concrete raw table `exRaw`. -/
theorem C6_coercion_is_cellwise_witness :
    (coerce exRaw).get ⟨0, by decide⟩ = coerceRow (exRaw.get ⟨0, by decide⟩) :=
  C6_coercion_is_cellwise.1 exRaw 0 (by decide) (by decide)

set_option maxRecDepth 8000 in
/-- C7: a row appears in the right-sizer output iff it is in the table
and passes `MemoryMB > 1500` and `DurationSec < 1` under pandas
comparison semantics; the output is sorted by `MemoryMB` descending;
on the concrete table `exMem` the row with `DurationSec = 0.5` is the
sole output row while the `DurationSec = 1.5` row is excluded. -/
theorem C7_rightsizer_membership_and_sort :
    (∀ (t : List Row) (r : Row),
        r ∈ (memory_issues t).map (fun m => m.row)
          ↔ r ∈ t ∧ cGtQ r.memoryMB 1500 = true ∧ cLtQ (durationSec r) 1 = true)
    ∧ (∀ t : List Row,
        (memory_issues t).Pairwise (fun a b => descLe a.row.memoryMB b.row.memoryMB = true))
    ∧ (memory_issues exMem).map (fun m => m.row) = [rowIncl] := by
  refine ⟨?_, ?_, by with_unfolding_all decide⟩
  · intro t r
    rw [mem_memory_issues_row]
    simp [memPred, Bool.and_eq_true]
  · intro t
    unfold memory_issues
    refine List.pairwise_map.mpr ?_
    unfold sortDescBy
    exact @sortBy_pairwise Row (fun a b => descLe a.memoryMB b.memoryMB)
      (fun a b => descLe_total _ _) (fun a b c => descLe_trans _ _ _) (t.filter memPred)

/-- C8: every low-value output row has a present invocation share
strictly below one percent of the full-table invocation total, and a
present cost strictly above the median of the full unfiltered cost
column. -/
theorem C8_low_value_members (t : List Row) (r : Row) (hr : r ∈ low_value t) :
    (∃ inv : ℚ, r.invocationsPerMonth = some inv ∧ total_inv t ≠ 0
      ∧ inv / total_inv t * 100 < 1)
    ∧ (∃ c m : ℚ, r.costUSD = some c ∧ medianCost t = some m ∧ m < c) := by
  have h := (List.mem_filter.mp hr).2
  rw [Bool.and_eq_true] at h
  obtain ⟨h1, h2⟩ := h
  constructor
  · by_cases hT : total_inv t = 0
    · rw [percentInvocations, cDivQ, if_pos hT] at h1
      simp [cMulQ, cLtQ] at h1
    · cases hi : r.invocationsPerMonth with
      | none =>
        rw [percentInvocations, cDivQ, if_neg hT, hi] at h1
        simp [cMulQ, cLtQ] at h1
      | some inv =>
        refine ⟨inv, rfl, hT, ?_⟩
        rw [percentInvocations, cDivQ, if_neg hT, hi] at h1
        simpa [cMulQ, cLtQ] using h1
  · cases hc : r.costUSD with
    | none =>
      rw [hc] at h2
      simp [cGtC] at h2
    | some c =>
      cases hm : medianCost t with
      | none =>
        rw [hc, hm] at h2
        simp [cGtC] at h2
      | some m =>
        rw [hc, hm] at h2
        simp only [cGtC, decide_eq_true_eq] at h2
        exact ⟨c, m, rfl, rfl, h2⟩

/-- Witness for C8 on row "a" of the concrete table `exLow`. -/
theorem C8_low_value_members_witness :
    (∃ inv : ℚ, rowLowA.invocationsPerMonth = some inv ∧ total_inv exLow ≠ 0
      ∧ inv / total_inv exLow * 100 < 1)
    ∧ (∃ c m : ℚ, rowLowA.costUSD = some c ∧ medianCost exLow = some m ∧ m < c) :=
  C8_low_value_members exLow rowLowA (by with_unfolding_all decide)

/-- The raw projection of the freshly ingested dataframe. -/
theorem baseDf_raw (rows : List Row) :
    (baseDf rows).map (fun x => x.raw) = rows := by
  unfold baseDf
  rw [List.map_map]
  exact List.map_id _

/-- Adding the DurationSec column leaves the raw columns unchanged. -/
theorem addDurationSec_raw (df : List DfRow) :
    (addDurationSec df).map (fun x => x.raw) = df.map (fun x => x.raw) := by
  unfold addDurationSec
  rw [List.map_map]
  rfl

/-- Adding the PercentInvocations column leaves the raw columns
unchanged. -/
theorem addPercentInvocations_raw (df : List DfRow) :
    (addPercentInvocations df).map (fun x => x.raw) = df.map (fun x => x.raw) := by
  unfold addPercentInvocations
  rw [List.map_map]
  rfl

/-- Adding the PredictedCost column leaves the raw columns unchanged. -/
theorem addPredictedCost_raw (df : List DfRow) :
    (addPredictedCost df).map (fun x => x.raw) = df.map (fun x => x.raw) := by
  unfold addPredictedCost
  rw [List.map_map]
  rfl

/-- C9: no stage overwrites a raw input column — projecting the threaded
dataframe back to its eight raw columns after the whole pipeline yields
exactly the post-coercion table; every derived column lives in a
separate, additive field. -/
theorem C9_raw_columns_never_overwritten (t : List RawRow) :
    (runPipeline t).map (fun x => x.raw) = coerce t := by
  unfold runPipeline
  rw [addPredictedCost_raw, addPercentInvocations_raw, addDurationSec_raw, baseDf_raw]

/-- C10: a row carrying a missing value in a column referenced by a
stage's filter predicate is excluded from that stage's output, because
every pandas comparison against NaN evaluates false. -/
theorem C10_missing_filter_inputs_excluded (t : List Row) (r : Row) :
    ((r.memoryMB = none ∨ r.avgDurationMs = none)
        → r ∉ (memory_issues t).map (fun m => m.row))
    ∧ (r.provisionedConcurrency = none → r ∉ (pc_candidates t).map (fun p => p.row))
    ∧ ((r.invocationsPerMonth = none ∨ r.costUSD = none) → r ∉ low_value t)
    ∧ ((r.avgDurationMs = none ∨ r.memoryMB = none ∨ r.invocationsPerMonth = none)
        → r ∉ containers t) := by
  refine ⟨?_, ?_, ?_, ?_⟩
  · intro h hmem
    have hp := (mem_memory_issues_row.mp hmem).2
    rcases h with h | h <;> simp [memPred, cGtQ, cLtQ, durationSec, h] at hp
  · intro h hmem
    rw [pc_candidates_rows] at hmem
    have hp := (List.mem_filter.mp hmem).2
    simp [cGtQ, h] at hp
  · intro h hmem
    have hp := (List.mem_filter.mp hmem).2
    rcases h with h | h
    · by_cases hT : total_inv t = 0 <;>
        simp [percentInvocations, cDivQ, cMulQ, cLtQ, h, hT] at hp
    · simp [cGtC, h] at hp
  · intro h hmem
    have hp := (List.mem_filter.mp hmem).2
    rcases h with h | h | h <;> simp [cGtQ, cLtQ, durationSec, h] at hp

/-- Witness for C10: the all-missing row is excluded from all four
stage outputs on the concrete table `exNone`. -/
theorem C10_missing_filter_inputs_excluded_witness :
    rowNone ∉ (memory_issues exNone).map (fun m => m.row)
    ∧ rowNone ∉ (pc_candidates exNone).map (fun p => p.row)
    ∧ rowNone ∉ low_value exNone
    ∧ rowNone ∉ containers exNone := by
  have h := C10_missing_filter_inputs_excluded exNone rowNone
  exact ⟨h.1 (Or.inl rfl), h.2.1 rfl, h.2.2.1 (Or.inl rfl), h.2.2.2 (Or.inl rfl)⟩

/-- C5: the forecaster's PredictedCost column is, at every row, a fixed
closed form of that row's own fields with constants k = 2e-9 and
p = 0.09; no quantity fitted over the dataset enters it, and when all
four inputs are present the value is
`Invocations * (AvgDurationMs / 1000) * MemoryMB * k + DataTransferGB * p`. -/
theorem C5_forecaster_fixed_closed_form :
    (∀ (t : List RawRow) (i : ℕ) (hi : i < (runPipeline t).length),
        ((runPipeline t).get ⟨i, hi⟩).predictedCostCol
          = some (predictedCost ((runPipeline t).get ⟨i, hi⟩).raw))
    ∧ (∀ (r : Row) (inv ms mem dtg : ℚ),
        r.invocationsPerMonth = some inv → r.avgDurationMs = some ms
        → r.memoryMB = some mem → r.dataTransferGB = some dtg
        → predictedCost r
            = some (inv * (ms / 1000) * mem * (2 / 1000000000) + dtg * (9 / 100))) := by
  constructor
  · intro t i hi
    unfold runPipeline addPredictedCost addPercentInvocations addDurationSec baseDf
    simp only [List.get_eq_getElem, List.getElem_map]
    rfl
  · intro r inv ms mem dtg h1 h2 h3 h4
    simp [predictedCost, durationSec, cMul, cMulQ, cAdd, kCoeff, pCoeff, h1, h2, h3, h4]

/-- Witness for C5: row 0 of the pipeline over `exRaw`, and the closed
form at the concrete row `rowIncl`. -/
theorem C5_forecaster_fixed_closed_form_witness :
    ((runPipeline exRaw).get ⟨0, by decide⟩).predictedCostCol
      = some (predictedCost ((runPipeline exRaw).get ⟨0, by decide⟩).raw)
    ∧ predictedCost rowIncl
        = some (1 * ((500 : ℚ) / 1000) * 2000 * (2 / 1000000000) + 1 * (9 / 100)) :=
  ⟨C5_forecaster_fixed_closed_form.1 exRaw 0 (by decide),
   C5_forecaster_fixed_closed_form.2 rowIncl 1 500 2000 1 rfl rfl rfl rfl⟩

/-- Mapping `some` over a list and filtering the options back out is the
identity. -/
theorem filterMap_id_map_some (l : List ℚ) : (l.map some).filterMap id = l := by
  induction l with
  | nil => rfl
  | cons x xs ih => simp [ih]

/-- `cumsum` on a column with no missing cell is the running-sums list. -/
theorem cumsumFrom_map_some (l : List ℚ) :
    ∀ acc : ℚ, cumsumFrom acc (l.map some) = (runningSums acc l).map some := by
  induction l with
  | nil => intro acc; rfl
  | cons x xs ih => intro acc; simp [cumsumFrom, runningSums, ih]

/-- `cumsum` preserves the column length. -/
theorem cumsumFrom_length (xs : List Cell) :
    ∀ acc : ℚ, (cumsumFrom acc xs).length = xs.length := by
  induction xs with
  | nil => intro acc; rfl
  | cons x xs ih => intro acc; cases x <;> simp [cumsumFrom, ih]

/-- Running sums of nonnegative values are monotone non-decreasing. -/
theorem monoQ_runningSums (l : List ℚ) :
    ∀ acc : ℚ, (∀ q ∈ l, 0 ≤ q) → monoQ (runningSums acc l) = true := by
  induction l with
  | nil => intro acc h; rfl
  | cons x xs ih =>
    intro acc h
    cases xs with
    | nil => rfl
    | cons y ys =>
      have h1 : monoQ (runningSums (acc + x) (y :: ys)) = true :=
        ih (acc + x) (fun q hq => h q (List.mem_cons_of_mem _ hq))
      have hy : 0 ≤ y := h y (by simp)
      show (decide (acc + x ≤ acc + x + y)
        && monoQ ((acc + x + y) :: runningSums (acc + x + y) ys)) = true
      rw [Bool.and_eq_true]
      exact ⟨decide_eq_true (by linarith), h1⟩

/-- The last running sum is the starting value plus the total. -/
theorem runningSums_getLast (l : List ℚ) :
    ∀ acc : ℚ, l ≠ [] → (runningSums acc l).getLast? = some (acc + l.sum) := by
  induction l with
  | nil => intro acc h; exact absurd rfl h
  | cons x xs ih =>
    intro acc h
    cases xs with
    | nil => simp [runningSums]
    | cons y ys =>
      have hcons : runningSums (acc + x) (y :: ys)
          = (acc + x + y) :: runningSums (acc + x + y) ys := rfl
      show ((acc + x) :: runningSums (acc + x) (y :: ys)).getLast? = _
      rw [hcons, List.getLast?_cons_cons, ← hcons, ih (acc + x) (by simp)]
      congr 1
      simp only [List.sum_cons]
      ring

/-- Monotonicity of an all-present column reduces to `monoQ`. -/
theorem monoCells_map_some (m : List ℚ) : monoCells (m.map some) = monoQ m := by
  induction m with
  | nil => rfl
  | cons x xs ih =>
    cases xs with
    | nil => rfl
    | cons y ys =>
      show (cellLe (some x) (some y) && monoCells ((y :: ys).map some))
          = (decide (x ≤ y) && monoQ (y :: ys))
      rw [ih]
      rfl

/-- A monotone map preserves `monoQ`. -/
theorem monoQ_map (f : ℚ → ℚ) (hf : ∀ x y : ℚ, x ≤ y → f x ≤ f y) :
    ∀ m : List ℚ, monoQ m = true → monoQ (m.map f) = true := by
  intro m
  induction m with
  | nil => intro h; rfl
  | cons x xs ih =>
    cases xs with
    | nil => intro h; rfl
    | cons y ys =>
      intro h
      simp only [List.map_cons, monoQ, Bool.and_eq_true, decide_eq_true_eq] at h ⊢
      exact ⟨hf x y h.1, ih h.2⟩

/-- A list of all-present cells is a `some`-image. -/
theorem exists_map_some (xs : List Cell) (h : ∀ x ∈ xs, ∃ q : ℚ, x = some q) :
    ∃ zs : List ℚ, xs = zs.map some := by
  induction xs with
  | nil => exact ⟨[], rfl⟩
  | cons x xs ih =>
    obtain ⟨q, hq⟩ := h x (List.mem_cons_self _ _)
    obtain ⟨zs, hzs⟩ := ih (fun y hy => h y (List.mem_cons_of_mem _ hy))
    exact ⟨q :: zs, by rw [hq, hzs]; rfl⟩

/-- Extracting the values back out of a `some`-image. -/
theorem map_some_cancel (zs : List ℚ) :
    (zs.map some).map (fun o : Cell => Option.getD o 0) = zs := by
  induction zs with
  | nil => rfl
  | cons x xs ih => simp [ih]

/-- Mapping a function of the second components over a zip of
equal-length lists is a map over the second list. -/
theorem map_snd_zip_map {α β γ : Type} (g : β → γ) :
    ∀ (as : List α) (bs : List β), as.length = bs.length →
      (as.zip bs).map (fun p => g p.2) = bs.map g := by
  intro as
  induction as with
  | nil =>
    intro bs h
    cases bs with
    | nil => rfl
    | cons b bs => simp at h
  | cons a as ih =>
    intro bs h
    cases bs with
    | nil => simp at h
    | cons b bs =>
      simp only [List.zip_cons_cons, List.map_cons]
      rw [ih bs (by simpa using h)]

/-- The cumulative-percent column of the ranker is the cumulative-cost
column scaled by `100 / total_cost`. -/
theorem rankedRows_percents (t : List Row) :
    (rankedRows t).map (fun rr => rr.cumulativePercent)
      = (cumsum ((df_sorted t).map (fun r => r.costUSD))).map
          (fun c => cMulQ (cDivQ c (total_cost t)) 100) := by
  unfold rankedRows
  rw [List.map_map]
  exact map_snd_zip_map (fun c => cMulQ (cDivQ c (total_cost t)) 100) (df_sorted t)
    (cumsum ((df_sorted t).map (fun r => r.costUSD)))
    (by unfold cumsum; rw [cumsumFrom_length, List.length_map])

/-- Counterexample to C2: on the ingested two-row table with
`CostUSD = [100, -50]` the cumulative-percent column is
`[200, 100]`, which strictly decreases, so the column is not
monotonically non-decreasing on every ingested table. -/
theorem C2_cumulative_percent_counterexample :
    monoCells ((rankedRows exNegCost).map (fun rr => rr.cumulativePercent)) = false := by
  with_unfolding_all decide

/-- C2 (amended): on every ingested table whose `CostUSD` column is
fully present with nonnegative values and positive total, the
cumulative-percent column over the full cost-descending-sorted table is
monotonically non-decreasing and its last entry equals exactly 100. -/
theorem C2_cumulative_percent_monotone_last_100 (t : List Row) (l : List ℚ)
    (hl : t.map (fun r => r.costUSD) = l.map some)
    (hnn : ∀ q ∈ l, 0 ≤ q)
    (hpos : 0 < l.sum) :
    monoCells ((rankedRows t).map (fun rr => rr.cumulativePercent)) = true
    ∧ ((rankedRows t).map (fun rr => rr.cumulativePercent)).getLast? = some (some 100) := by
  have hT : total_cost t = l.sum := by
    unfold total_cost colSum
    rw [hl, filterMap_id_map_some]
  have hTpos : 0 < total_cost t := hT ▸ hpos
  have hTne : total_cost t ≠ 0 := ne_of_gt hTpos
  have hperm : (df_sorted t).Perm t := sortBy_perm _ _
  have hallsome : ∀ x ∈ (df_sorted t).map (fun r => r.costUSD), ∃ q : ℚ, x = some q := by
    intro x hx
    obtain ⟨r, hr, rfl⟩ := List.mem_map.mp hx
    have hrt : r ∈ t := hperm.subset hr
    have hmem : r.costUSD ∈ t.map (fun r => r.costUSD) := List.mem_map_of_mem _ hrt
    rw [hl] at hmem
    obtain ⟨q, hq1, hq2⟩ := List.mem_map.mp hmem
    exact ⟨q, hq2.symm⟩
  obtain ⟨zs, hzs⟩ := exists_map_some _ hallsome
  have hmapperm :
      ((df_sorted t).map (fun r => r.costUSD)).Perm (t.map (fun r => r.costUSD)) :=
    hperm.map _
  rw [hzs, hl] at hmapperm
  have hzl : zs.Perm l := by
    have h2 := hmapperm.map (fun o : Cell => Option.getD o 0)
    rwa [map_some_cancel, map_some_cancel] at h2
  have hsum : zs.sum = l.sum := hzl.sum_eq
  have hnnz : ∀ q ∈ zs, 0 ≤ q := fun q hq => hnn q (hzl.subset hq)
  have hne : zs ≠ [] := by
    intro h0
    rw [h0] at hsum
    simp at hsum
    rw [← hsum] at hpos
    exact lt_irrefl 0 hpos
  have hcc : cumsum ((df_sorted t).map (fun r => r.costUSD))
      = (runningSums 0 zs).map some := by
    rw [hzs]
    exact cumsumFrom_map_some zs 0
  have hpc : (rankedRows t).map (fun rr => rr.cumulativePercent)
      = (runningSums 0 zs).map (fun x => some (x / total_cost t * 100)) := by
    rw [rankedRows_percents, hcc, List.map_map]
    apply List.map_congr_left
    intro a ha
    simp [cDivQ, cMulQ, if_neg hTne]
  constructor
  · rw [hpc]
    have hsplit : (runningSums 0 zs).map (fun x => some (x / total_cost t * 100))
        = ((runningSums 0 zs).map (fun x => x / total_cost t * 100)).map some := by
      rw [List.map_map]
      rfl
    rw [hsplit, monoCells_map_some]
    apply monoQ_map
    · intro x y hxy
      have h1 : x / total_cost t ≤ y / total_cost t :=
        (div_le_div_iff_of_pos_right hTpos).mpr hxy
      exact mul_le_mul_of_nonneg_right h1 (by norm_num)
    · exact monoQ_runningSums zs 0 hnnz
  · rw [hpc, List.getLast?_map, runningSums_getLast zs 0 hne]
    have heq : zs.sum / total_cost t * 100 = (100 : ℚ) := by
      rw [hsum, hT, div_self (ne_of_gt hpos), one_mul]
    simp [heq]

/-- Witness for the amended C2 on the concrete table with costs
`[100, 20]`: the percent column `[250/3, 100]` is monotone and ends at
100. -/
theorem C2_cumulative_percent_monotone_last_100_witness :
    monoCells ((rankedRows exCosts).map (fun rr => rr.cumulativePercent)) = true
    ∧ ((rankedRows exCosts).map (fun rr => rr.cumulativePercent)).getLast?
        = some (some 100) :=
  C2_cumulative_percent_monotone_last_100 exCosts [100, 20]
    (by with_unfolding_all decide) (by with_unfolding_all decide)
    (by with_unfolding_all decide)
